import Mathlib

/-!
Shallow embedding of the client-side utilities of the model server
repository.

Source files:
  * example_client/client_utils.py  (print_statistics, prepare_certs)
  * tests/functional/test_model_versions_handling.py (behavioral tests of
    the version-resolution contract; the server itself is not part of the
    excerpt, so that contract is modelled from the specification).

Python floats are idealised as exact rationals; the IEEE special values
that numpy produces on degenerate inputs (nan from a mean of an empty
array, inf from division by zero) are represented explicitly by the
`PyFloat` type.  Statistics follow the numpy semantics used by the source:
`np.average`/`np.median`/`np.var`/`np.std` return nan on an empty array,
while `np.max`/`np.min` raise a ValueError on an empty array
("zero-size array to reduction operation") and `np.percentile` raises on
an empty array as well (the percentile call is never reached on the empty
trace, because `np.max` raises first).
-/

/-- An idealised Python/numpy floating value: an exact rational, or one of
the IEEE special values nan, +inf, -inf. -/
inductive PyFloat where
  | val : ℚ → PyFloat
  | nan : PyFloat
  | inf : PyFloat
  | ninf : PyFloat
deriving DecidableEq

/-- Errors raised by the numpy reductions used in the source. -/
inductive NPError where
  | emptyReduce : NPError
  | emptyTake : NPError
deriving DecidableEq

/-- Division `a / p` of a finite number by a numpy scalar: nan propagates,
a finite value divided by an infinity is 0, and division by zero follows
IEEE semantics (positive/0 = +inf, negative/0 = -inf, 0/0 = nan). -/
def pyDiv (a : ℚ) (p : PyFloat) : PyFloat :=
  match p with
  | .nan => .nan
  | .inf => .val 0
  | .ninf => .val 0
  | .val q =>
      if q = 0 then
        (if 0 < a then .inf else if a < 0 then .ninf else .nan)
      else .val (a / q)

/-- Round a rational to the nearest integer, ties to even (the rounding
used by Python round on floats, idealised over ℚ). -/
def roundHalfEven (x : ℚ) : ℤ :=
  if x - ⌊x⌋ < 1/2 then ⌊x⌋
  else if 1/2 < x - ⌊x⌋ then ⌊x⌋ + 1
  else if ⌊x⌋ % 2 = 0 then ⌊x⌋ else ⌊x⌋ + 1

/-- Python round(x, 2): round to 2 decimal digits, ties to even. -/
def round2 (x : ℚ) : ℚ := (roundHalfEven (x * 100) : ℚ) / 100

/-- Python round(p, 2) lifted to numpy scalars: the special values are
returned unchanged (round(nan, 2) = nan, round(inf, 2) = inf). -/
def pyRound (p : PyFloat) : PyFloat :=
  match p with
  | .val q => .val (round2 q)
  | .nan => .nan
  | .inf => .inf
  | .ninf => .ninf

/-- np.average with no weights: the arithmetic mean; nan on an empty
array. -/
def np_average : List ℚ → PyFloat
  | [] => .nan
  | x :: l => .val ((x :: l).sum / (x :: l).length)

/-- The ascending sort numpy performs before rank statistics. -/
def sortQ (xs : List ℚ) : List ℚ := List.insertionSort (· ≤ ·) xs

/-- Median of an already sorted non-empty list: middle element for odd
length, mean of the two middle elements for even length. -/
def medianOfSorted (s : List ℚ) : ℚ :=
  if s.length % 2 = 1 then s.getD (s.length / 2) 0
  else (s.getD (s.length / 2 - 1) 0 + s.getD (s.length / 2) 0) / 2

/-- np.median: sort, then take the middle; nan on an empty array. -/
def np_median : List ℚ → PyFloat
  | [] => .nan
  | x :: l => .val (medianOfSorted (sortQ (x :: l)))

/-- np.max: reduction over a non-empty array; ValueError (zero-size array
to reduction operation) on an empty one. -/
def np_max : List ℚ → Except NPError ℚ
  | [] => .error .emptyReduce
  | x :: l => .ok (l.foldl max x)

/-- np.min: reduction over a non-empty array; ValueError on an empty
one. -/
def np_min : List ℚ → Except NPError ℚ
  | [] => .error .emptyReduce
  | x :: l => .ok (l.foldl min x)

/-- Rank-q percentile (numpy linear interpolation) of an already sorted
non-empty list: virtual position q/100*(n-1); interpolate linearly
between the two neighbouring ranks. -/
def percentileOfSorted (s : List ℚ) (q : ℚ) : ℚ :=
  let n := s.length
  let pos : ℚ := q / 100 * ((n : ℚ) - 1)
  let i : ℕ := (⌊pos⌋).toNat
  let frac : ℚ := pos - (⌊pos⌋ : ℚ)
  if i + 1 < n then s.getD i 0 + frac * (s.getD (i + 1) 0 - s.getD i 0)
  else s.getD i 0

/-- np.percentile with linear interpolation; raises on an empty array. -/
def np_percentile (xs : List ℚ) (q : ℚ) : Except NPError ℚ :=
  match xs with
  | [] => .error .emptyTake
  | x :: l => .ok (percentileOfSorted (sortQ (x :: l)) q)

/-- np.var with the default ddof = 0: the mean of the squared deviations
from the mean (computed exactly as numpy does: first the mean, then the
mean of the squared deviations); nan on an empty array. -/
def np_var (xs : List ℚ) : PyFloat :=
  np_average (xs.map (fun x => (x - xs.sum / xs.length) ^ 2))

/-- np.std with the default ddof = 0: the square root of np.var.  The
square root leaves ℚ, so this definition lives in ℝ and is only used to
state properties of the displayed standard deviation. -/
noncomputable def np_std (xs : List ℚ) : Option ℝ :=
  match np_var xs with
  | .val v => some (Real.sqrt (v : ℝ))
  | _ => none

/-- The throughput formula of the source: 1000 * batch_size / time. -/
def throughput (batch_size t : ℚ) : ℚ := 1000 * batch_size / t

/-- One printed line of the report.  `timeSpeed` lines display a rounded
time (ms) and a rounded speed (fps); `timeOnly` displays one rounded
value; `sqrtTimeOnly` is the standard-deviation line, which displays
round2 of the square root of the recorded radicand (the square root is
irrational in general, so the line is recorded by its radicand; `np_std`
gives the displayed value in ℝ). -/
inductive ReportLine where
  | header : ReportLine
  | timeSpeed (timeLabel speedLabel : String) (time speed : PyFloat) : ReportLine
  | timeOnly (label : String) (value : PyFloat) : ReportLine
  | sqrtTimeOnly (label : String) (radicand : PyFloat) : ReportLine
deriving DecidableEq

/-- Embedding of print_statistics.  The result is the list of lines
actually written to stdout, paired with the numpy error that aborted the
function, if any: each print statement evaluates its numpy calls at print
time, so an exception raised while building a line leaves the earlier
lines already printed. -/
def print_statistics (processing_times : List ℚ) (batch_size : ℚ) :
    List ReportLine × Option NPError :=
  let ts := processing_times
  let avgLine : ReportLine :=
    .timeSpeed "average time" "average speed"
      (pyRound (np_average ts))
      (pyRound (pyDiv (1000 * batch_size) (np_average ts)))
  let medLine : ReportLine :=
    .timeSpeed "median time" "median speed"
      (pyRound (np_median ts))
      (pyRound (pyDiv (1000 * batch_size) (np_median ts)))
  match np_max ts with
  | .error e => ([.header, avgLine, medLine], some e)
  | .ok mx =>
    let maxLine : ReportLine :=
      .timeSpeed "max time" "min speed"
        (pyRound (.val mx))
        (pyRound (pyDiv (1000 * batch_size) (.val mx)))
    match np_min ts with
    | .error e => ([.header, avgLine, medLine, maxLine], some e)
    | .ok mn =>
      let minLine : ReportLine :=
        .timeSpeed "min time" "max speed"
          (pyRound (.val mn))
          (pyRound (pyDiv (1000 * batch_size) (.val mn)))
      match np_percentile ts 90 with
      | .error e => ([.header, avgLine, medLine, maxLine, minLine], some e)
      | .ok p90 =>
        let p90Line : ReportLine :=
          .timeSpeed "time percentile 90" "speed percentile 90"
            (pyRound (.val p90))
            (pyRound (pyDiv (1000 * batch_size) (.val p90)))
        match np_percentile ts 50 with
        | .error e =>
            ([.header, avgLine, medLine, maxLine, minLine, p90Line], some e)
        | .ok p50 =>
          let p50Line : ReportLine :=
            .timeSpeed "time percentile 50" "speed percentile 50"
              (pyRound (.val p50))
              (pyRound (pyDiv (1000 * batch_size) (.val p50)))
          let stdLine : ReportLine :=
            .sqrtTimeOnly "time standard deviation" (np_var ts)
          let varLine : ReportLine :=
            .timeOnly "time variance" (pyRound (np_var ts))
          ([.header, avgLine, medLine, maxLine, minLine, p90Line, p50Line,
            stdLine, varLine], none)

/-- A byte buffer: the raw contents of a file. -/
abbrev Bytes := List ℕ

/-- The filesystem visible to prepare_certs: a partial map from path to
readable contents.  A path mapped to none does not exist or is
unreadable, so opening it raises. -/
abbrev FileSystem := String → Option Bytes

/-- The three credential slots of prepare_certs. -/
inductive CertSlot where
  | server_cert : CertSlot
  | client_key : CertSlot
  | client_ca : CertSlot
deriving DecidableEq

/-- The IOError raised by a failed open: the traceback identifies which
of the three open calls raised, and the message carries the path. -/
structure FileAccessError where
  slot : CertSlot
  path : String
deriving DecidableEq

/-- One `if path is not None: open(path).read()` block of prepare_certs:
returns the list of paths opened together with the outcome. -/
def readCert (fs : FileSystem) (slot : CertSlot) (path : Option String) :
    List String × Except FileAccessError (Option Bytes) :=
  match path with
  | none => ([], .ok none)
  | some p =>
      match fs p with
      | none => ([p], .error ⟨slot, p⟩)
      | some bs => ([p], .ok (some bs))

/-- Embedding of prepare_certs: the three optional paths are read in
order (server certificate, client key, client CA); a path that is not
supplied passes through as absent; a failed open aborts the call.  The
first component is the list of filesystem accesses performed, in order;
the second is the returned 3-tuple or the raised error. -/
def prepare_certs (fs : FileSystem)
    (server_cert client_key client_ca : Option String) :
    List String × Except FileAccessError (Option Bytes × Option Bytes × Option Bytes) :=
  match readCert fs .server_cert server_cert with
  | (log1, .error e) => (log1, .error e)
  | (log1, .ok sc) =>
    match readCert fs .client_key client_key with
    | (log2, .error e) => (log1 ++ log2, .error e)
    | (log2, .ok ck) =>
      match readCert fs .client_ca client_ca with
      | (log3, .error e) => (log1 ++ log2 ++ log3, .error e)
      | (log3, .ok ca) => (log1 ++ log2 ++ log3, .ok (sc, ck, ca))

/-- Modelled from the spec: the lifecycle states of one model version
(spec section 4.3; the serving code itself is not part of the
excerpt). -/
inductive MVState where
  | LOADING : MVState
  | AVAILABLE : MVState
  | LOAD_FAILED : MVState
deriving DecidableEq

/-- Modelled from the spec: one tracked version of a model and its
lifecycle state. -/
structure VersionEntry where
  version : ℕ
  state : MVState
deriving DecidableEq

/-- Modelled from the spec: the set of versions currently tracked for
one model name. -/
structure TrackedModel where
  entries : List VersionEntry
deriving DecidableEq

/-- Modelled from the spec: error conditions of the version-resolution
contract. -/
inductive ResolveError where
  | versionNotFound : ResolveError
deriving DecidableEq

/-- Modelled from the spec: the version ids currently AVAILABLE. -/
def availableVersions (m : TrackedModel) : List ℕ :=
  (m.entries.filter (fun e => e.state = MVState.AVAILABLE)).map (fun e => e.version)

/-- Modelled from the spec: resolution rule for inference and metadata
requests — an explicit version operates on exactly that version if
AVAILABLE, else VERSION_NOT_FOUND; no version operates on the maximum
numeric id among the currently AVAILABLE versions (the default). -/
def resolveVersion (m : TrackedModel) (requested : Option ℕ) : Except ResolveError ℕ :=
  match requested with
  | some v => if v ∈ availableVersions m then .ok v else .error .versionNotFound
  | none =>
      match availableVersions m with
      | [] => .error .versionNotFound
      | x :: l => .ok (l.foldl max x)

/-- Modelled from the spec: a status request with no version returns
status entries for ALL currently tracked versions, while an explicit
version returns the entry for exactly that version if AVAILABLE. -/
def statusRequest (m : TrackedModel) (requested : Option ℕ) :
    Except ResolveError (List VersionEntry) :=
  match requested with
  | none => .ok m.entries
  | some v =>
      match m.entries.filter (fun e => e.version = v ∧ e.state = MVState.AVAILABLE) with
      | [] => .error .versionNotFound
      | x :: l => .ok (x :: l)

/-- The scenario of the tests: one model with versions 1 and 2, both
AVAILABLE. -/
def twoVersionModel : TrackedModel :=
  ⟨[⟨1, MVState.AVAILABLE⟩, ⟨2, MVState.AVAILABLE⟩]⟩

/-- A filesystem on which every path is readable with contents [7]; used
by concrete witnesses. -/
def fsAll7 : FileSystem := fun _ => some [7]

/-- A filesystem on which no path is readable; used by concrete
witnesses. -/
def fsNone : FileSystem := fun _ => none

lemma readCert_ok (fs : FileSystem) (slot : CertSlot) (path : Option String)
    (h : ∀ p, path = some p → (fs p).isSome) :
    readCert fs slot path = (path.toList, .ok (path.bind fs)) := by
  cases path with
  | none => rfl
  | some p =>
      obtain ⟨bs, hbs⟩ := Option.isSome_iff_exists.mp (h p rfl)
      simp [readCert, hbs]

lemma prepare_certs_ok_of_readable (fs : FileSystem)
    (s k c : Option String)
    (hs : ∀ p, s = some p → (fs p).isSome)
    (hk : ∀ p, k = some p → (fs p).isSome)
    (hc : ∀ p, c = some p → (fs p).isSome) :
    prepare_certs fs s k c =
      (s.toList ++ k.toList ++ c.toList, .ok (s.bind fs, k.bind fs, c.bind fs)) := by
  rw [prepare_certs, readCert_ok fs _ s hs, readCert_ok fs _ k hk, readCert_ok fs _ c hc]

lemma prepare_certs_err_server (fs : FileSystem) (s k c : Option String)
    (p : String) (hp : s = some p) (hnone : fs p = none) :
    (prepare_certs fs s k c).2 = .error ⟨CertSlot.server_cert, p⟩ := by
  subst hp
  rw [prepare_certs]
  simp [readCert, hnone]

lemma prepare_certs_err_key (fs : FileSystem) (s k c : Option String)
    (hs : ∀ p, s = some p → (fs p).isSome)
    (p : String) (hp : k = some p) (hnone : fs p = none) :
    (prepare_certs fs s k c).2 = .error ⟨CertSlot.client_key, p⟩ := by
  subst hp
  rw [prepare_certs, readCert_ok fs _ s hs]
  simp [readCert, hnone]

lemma prepare_certs_err_ca (fs : FileSystem) (s k c : Option String)
    (hs : ∀ p, s = some p → (fs p).isSome)
    (hk : ∀ p, k = some p → (fs p).isSome)
    (p : String) (hp : c = some p) (hnone : fs p = none) :
    (prepare_certs fs s k c).2 = .error ⟨CertSlot.client_ca, p⟩ := by
  subst hp
  rw [prepare_certs, readCert_ok fs _ s hs, readCert_ok fs _ k hk]
  simp [readCert, hnone]

/-- Full reduction of print_statistics on a non-empty sample list: the
report succeeds and consists of the header, six time/speed lines, the
standard-deviation line and the variance line. -/
lemma print_statistics_cons (x : ℚ) (l : List ℚ) (b : ℚ) :
    print_statistics (x :: l) b =
      ([.header,
        .timeSpeed "average time" "average speed"
          (pyRound (np_average (x :: l)))
          (pyRound (pyDiv (1000 * b) (np_average (x :: l)))),
        .timeSpeed "median time" "median speed"
          (pyRound (np_median (x :: l)))
          (pyRound (pyDiv (1000 * b) (np_median (x :: l)))),
        .timeSpeed "max time" "min speed"
          (pyRound (.val (l.foldl max x)))
          (pyRound (pyDiv (1000 * b) (.val (l.foldl max x)))),
        .timeSpeed "min time" "max speed"
          (pyRound (.val (l.foldl min x)))
          (pyRound (pyDiv (1000 * b) (.val (l.foldl min x)))),
        .timeSpeed "time percentile 90" "speed percentile 90"
          (pyRound (.val (percentileOfSorted (sortQ (x :: l)) 90)))
          (pyRound (pyDiv (1000 * b) (.val (percentileOfSorted (sortQ (x :: l)) 90)))),
        .timeSpeed "time percentile 50" "speed percentile 50"
          (pyRound (.val (percentileOfSorted (sortQ (x :: l)) 50)))
          (pyRound (pyDiv (1000 * b) (.val (percentileOfSorted (sortQ (x :: l)) 50)))),
        .sqrtTimeOnly "time standard deviation" (np_var (x :: l)),
        .timeOnly "time variance" (pyRound (np_var (x :: l)))], none) := rfl

/-- Rank interpolation at q = 50 lands exactly on the median: the middle
element for odd length, the midpoint of the two middle elements for even
length.  Only the length of the list matters for this identity. -/
lemma percentile50_eq_median (s : List ℚ) (hs : s ≠ []) :
    percentileOfSorted s 50 = medianOfSorted s := by
  have hlen : s.length ≠ 0 := fun h => hs (List.length_eq_zero.mp h)
  rcases Nat.even_or_odd s.length with he | ho
  · obtain ⟨m, hm⟩ : ∃ m, s.length = 2 * m + 2 :=
      ⟨s.length / 2 - 1, by have := Nat.even_iff.mp he; omega⟩
    have hpos : (50 : ℚ) / 100 * ((s.length : ℚ) - 1) = (m : ℚ) + 1 / 2 := by
      rw [hm]; push_cast; ring
    have hfloor : ⌊(50 : ℚ) / 100 * ((s.length : ℚ) - 1)⌋ = (m : ℤ) := by
      rw [hpos, Int.floor_eq_iff]
      constructor
      · push_cast; linarith
      · push_cast; linarith
    simp only [percentileOfSorted, medianOfSorted]
    rw [hfloor, hpos]
    simp only [Int.toNat_natCast]
    rw [if_pos (by omega : m + 1 < s.length), if_neg (by omega : ¬s.length % 2 = 1)]
    have h2 : s.length / 2 - 1 = m := by omega
    have h1 : s.length / 2 = m + 1 := by omega
    rw [h2, h1]
    push_cast
    ring
  · obtain ⟨m, hm⟩ : ∃ m, s.length = 2 * m + 1 :=
      ⟨s.length / 2, by have := Nat.odd_iff.mp ho; omega⟩
    have hpos : (50 : ℚ) / 100 * ((s.length : ℚ) - 1) = (m : ℚ) := by
      rw [hm]; push_cast; ring
    have hfloor : ⌊(50 : ℚ) / 100 * ((s.length : ℚ) - 1)⌋ = (m : ℤ) := by
      rw [hpos]; exact Int.floor_natCast m
    simp only [percentileOfSorted, medianOfSorted]
    rw [hfloor, hpos]
    simp only [Int.toNat_natCast]
    rw [if_pos (by omega : s.length % 2 = 1)]
    have h1 : s.length / 2 = m := by omega
    rw [h1]
    by_cases hm1 : m + 1 < s.length
    · rw [if_pos hm1]
      push_cast
      ring
    · rw [if_neg hm1]

/-- C4: on every non-empty sample sequence, the median statistic and the
50th-percentile statistic are the same rational number, so the reported
median time/speed pair and the reported percentile-50 time/speed pair in
the print_statistics output are numerically identical. -/
theorem np_median_matches_percentile50 (ts : List ℚ) (b : ℚ) (hne : ts ≠ []) :
    ∃ m : ℚ,
      np_median ts = PyFloat.val m ∧
      np_percentile ts 50 = Except.ok m ∧
      ReportLine.timeSpeed "median time" "median speed"
          (pyRound (PyFloat.val m)) (pyRound (pyDiv (1000 * b) (PyFloat.val m)))
        ∈ (print_statistics ts b).1 ∧
      ReportLine.timeSpeed "time percentile 50" "speed percentile 50"
          (pyRound (PyFloat.val m)) (pyRound (pyDiv (1000 * b) (PyFloat.val m)))
        ∈ (print_statistics ts b).1 := by
  cases ts with
  | nil => exact absurd rfl hne
  | cons x l =>
      have hs : sortQ (x :: l) ≠ [] := by
        intro h
        have hx : x ∈ sortQ (x :: l) := by
          rw [sortQ, List.mem_insertionSort]
          exact List.mem_cons_self x l
        rw [h] at hx
        exact List.not_mem_nil x hx
      have hpm := percentile50_eq_median (sortQ (x :: l)) hs
      refine ⟨medianOfSorted (sortQ (x :: l)), rfl, ?_, ?_, ?_⟩
      · show Except.ok (percentileOfSorted (sortQ (x :: l)) 50) = _
        rw [hpm]
      · rw [print_statistics_cons]
        exact List.mem_cons_of_mem _ (List.mem_cons_of_mem _ (List.mem_cons_self _ _))
      · rw [print_statistics_cons, ← hpm]
        exact List.mem_cons_of_mem _ (List.mem_cons_of_mem _ (List.mem_cons_of_mem _
          (List.mem_cons_of_mem _ (List.mem_cons_of_mem _ (List.mem_cons_of_mem _
            (List.mem_cons_self _ _))))))

/-- Concrete evaluation used by the C4 witness. -/
lemma np_median_eval_even : np_median [10, 20, 30, 40] = PyFloat.val 25 := by
  show PyFloat.val (medianOfSorted (sortQ [10, 20, 30, 40])) = PyFloat.val 25
  norm_num [medianOfSorted, sortQ, List.insertionSort, List.orderedInsert]

/-- Witness for C4 at an even-length sequence: the median and the 50th
percentile of [10, 20, 30, 40] are both 25. -/
theorem np_median_matches_percentile50_witness :
    np_percentile [10, 20, 30, 40] 50 = Except.ok 25 ∧
    np_median [10, 20, 30, 40] = PyFloat.val 25 := by
  obtain ⟨m, h1, h2, h3, h4⟩ :=
    np_median_matches_percentile50 [10, 20, 30, 40] 1 (List.cons_ne_nil _ _)
  have hm : m = 25 := PyFloat.val.inj (h1.symm.trans np_median_eval_even)
  subst hm
  exact ⟨h2, h1⟩

/-- C3: on every non-empty sample sequence and positive batch size the
report succeeds, and every printed throughput is obtained by dividing
1000 * batch_size by the UNROUNDED time statistic and rounding the
quotient to 2 decimal digits afterwards, independently of the rounding
applied to the displayed time (pyRound is applied outside pyDiv, and the
statistic fed to pyDiv is the exact, unrounded one). -/
theorem print_statistics_speed_from_unrounded (ts : List ℚ) (b : ℚ)
    (hne : ts ≠ []) (_hb : 0 < b) :
    ∃ av md mx mn p9 p5 : ℚ,
      np_average ts = PyFloat.val av ∧
      np_median ts = PyFloat.val md ∧
      np_max ts = Except.ok mx ∧
      np_min ts = Except.ok mn ∧
      np_percentile ts 90 = Except.ok p9 ∧
      np_percentile ts 50 = Except.ok p5 ∧
      print_statistics ts b =
        ([.header,
          .timeSpeed "average time" "average speed"
            (PyFloat.val (round2 av)) (pyRound (pyDiv (1000 * b) (PyFloat.val av))),
          .timeSpeed "median time" "median speed"
            (PyFloat.val (round2 md)) (pyRound (pyDiv (1000 * b) (PyFloat.val md))),
          .timeSpeed "max time" "min speed"
            (PyFloat.val (round2 mx)) (pyRound (pyDiv (1000 * b) (PyFloat.val mx))),
          .timeSpeed "min time" "max speed"
            (PyFloat.val (round2 mn)) (pyRound (pyDiv (1000 * b) (PyFloat.val mn))),
          .timeSpeed "time percentile 90" "speed percentile 90"
            (PyFloat.val (round2 p9)) (pyRound (pyDiv (1000 * b) (PyFloat.val p9))),
          .timeSpeed "time percentile 50" "speed percentile 50"
            (PyFloat.val (round2 p5)) (pyRound (pyDiv (1000 * b) (PyFloat.val p5))),
          .sqrtTimeOnly "time standard deviation" (np_var ts),
          .timeOnly "time variance" (pyRound (np_var ts))], none) := by
  cases ts with
  | nil => exact absurd rfl hne
  | cons x l =>
      exact ⟨(x :: l).sum / (x :: l).length,
        medianOfSorted (sortQ (x :: l)),
        l.foldl max x, l.foldl min x,
        percentileOfSorted (sortQ (x :: l)) 90,
        percentileOfSorted (sortQ (x :: l)) 50,
        rfl, rfl, rfl, rfl, rfl, rfl, print_statistics_cons x l b⟩

/-- Witness for C3 at the example sequence of the specification. -/
theorem print_statistics_speed_from_unrounded_witness :
    (print_statistics [10, 20, 30, 40, 50] 4).2 = none := by
  obtain ⟨av, md, mx, mn, p9, p5, h1, h2, h3, h4, h5, h6, h7⟩ :=
    print_statistics_speed_from_unrounded [10, 20, 30, 40, 50] 4
      (List.cons_ne_nil _ _) (by decide)
  rw [h7]

/-- C10: the variance reported by print_statistics is the population
variance: on every non-empty sample sequence it equals the mean of the
squared deviations from the mean, with divisor length (N), not N - 1;
the reported standard deviation is its nonnegative square root; and on a
single-element sequence both are 0 (hence displayed as 0.00, round2 of 0
being 0). -/
theorem np_var_population_std_sqrt (xs : List ℚ) (hne : xs ≠ []) :
    np_var xs = PyFloat.val
      ((xs.map (fun y => (y - xs.sum / (xs.length : ℚ)) ^ 2)).sum / (xs.length : ℚ)) ∧
    (∀ s : ℝ, np_std xs = some s → 0 ≤ s ∧
      s ^ 2 =
        (((xs.map (fun y => (y - xs.sum / (xs.length : ℚ)) ^ 2)).sum / (xs.length : ℚ) : ℚ) : ℝ)) ∧
    (∀ a : ℚ, xs = [a] →
      np_var xs = PyFloat.val 0 ∧ np_std xs = some 0 ∧
      pyRound (np_var xs) = PyFloat.val 0) := by
  cases xs with
  | nil => exact absurd rfl hne
  | cons x l =>
      have hvar : np_var (x :: l) = PyFloat.val
          (((x :: l).map (fun y => (y - (x :: l).sum / ((x :: l).length : ℚ)) ^ 2)).sum /
            ((((x :: l).map (fun y => (y - (x :: l).sum / ((x :: l).length : ℚ)) ^ 2)).length : ℚ))) := rfl
      rw [List.length_map] at hvar
      have hsumnn : 0 ≤
          ((x :: l).map (fun y => (y - (x :: l).sum / ((x :: l).length : ℚ)) ^ 2)).sum := by
        apply List.sum_nonneg
        intro y hy
        obtain ⟨z, _, rfl⟩ := List.mem_map.mp hy
        exact sq_nonneg _
      have hVnn : (0 : ℚ) ≤
          ((x :: l).map (fun y => (y - (x :: l).sum / ((x :: l).length : ℚ)) ^ 2)).sum /
            (((x :: l).length : ℚ)) :=
        div_nonneg hsumnn (by positivity)
      have hstd : np_std (x :: l) = some (Real.sqrt
          ((((x :: l).map (fun y => (y - (x :: l).sum / ((x :: l).length : ℚ)) ^ 2)).sum /
            (((x :: l).length : ℚ)) : ℚ) : ℝ)) := by
        simp only [np_std, hvar]
      refine ⟨hvar, ?_, ?_⟩
      · intro s hs
        have hseq : s = Real.sqrt _ := (Option.some.inj (hstd.symm.trans hs)).symm
        rw [hseq]
        refine ⟨Real.sqrt_nonneg _, ?_⟩
        exact Real.sq_sqrt (by exact_mod_cast hVnn)
      · intro a ha
        obtain ⟨rfl, rfl⟩ : x = a ∧ l = [] := by
          constructor <;> injection ha
        have e0 : (([x].map (fun y => (y - [x].sum / (([x].length : ℕ) : ℚ)) ^ 2)).sum /
            ((([x].length : ℕ) : ℚ))) = 0 := by
          simp
        have h0 : np_var [x] = PyFloat.val 0 := by
          rw [hvar, e0]
        refine ⟨h0, ?_, ?_⟩
        · simp only [np_std, h0]
          norm_num
        · rw [h0]
          show PyFloat.val (round2 0) = PyFloat.val 0
          norm_num [round2, roundHalfEven]

/-- Concrete evaluation used by the C10 witness. -/
lemma np_var_eval_pair :
    ((([0, 2] : List ℚ).map
        (fun y => (y - ([0, 2] : List ℚ).sum / ((([0, 2] : List ℚ).length : ℕ) : ℚ)) ^ 2)).sum /
      ((([0, 2] : List ℚ).length : ℕ) : ℚ)) = 1 := by
  norm_num

/-- Witness for C10: the variance of [0, 2] is 1 (divisor N = 2; the
sample variance with divisor N - 1 would be 2), and for the singleton
[5] both variance and standard deviation are 0. -/
theorem np_var_population_std_sqrt_witness :
    np_var [0, 2] = PyFloat.val 1 ∧ np_var [5] = PyFloat.val 0 ∧
    np_std [5] = some 0 := by
  have h1 := (np_var_population_std_sqrt [0, 2] (List.cons_ne_nil _ _)).1
  have h2 := (np_var_population_std_sqrt [5] (List.cons_ne_nil _ _)).2.2 5 rfl
  refine ⟨?_, h2.1, h2.2.1⟩
  rw [h1, np_var_eval_pair]

/-- C1: on an empty sample sequence, print_statistics does not fail fast
with a clear no-samples error before emitting any statistic: it prints
the header line and NaN-valued average and median lines, and only then
aborts with the zero-size-reduction error raised by np.max.  This
theorem evaluates the embedding at the failing input. -/
theorem print_statistics_empty_not_fail_fast :
    print_statistics [] 4 =
      ([ReportLine.header,
        ReportLine.timeSpeed "average time" "average speed" PyFloat.nan PyFloat.nan,
        ReportLine.timeSpeed "median time" "median speed" PyFloat.nan PyFloat.nan],
       some NPError.emptyReduce) := rfl

/-- C2: on the empty sample sequence (the input on which print_statistics
fails) a partial report IS emitted: the failure leaves three lines
already written, so the guarantee "either the complete report is printed
or no report line is printed at all" does not hold of the code.  This
theorem evaluates the embedding at the failing input. -/
theorem print_statistics_empty_partial_report :
    (print_statistics [] 2).2 = some NPError.emptyReduce ∧
    (print_statistics [] 2).1 ≠ [] ∧
    (print_statistics [] 2).1.length = 3 := by
  refine ⟨rfl, ?_, rfl⟩
  intro h
  simp [print_statistics, np_max, np_average, np_median] at h

/-- C6: for a model with versions 1 and 2 both AVAILABLE, a status
request with no version returns status entries for all tracked versions
(exactly 2 entries), while version resolution for an inference or
metadata request with no version yields the single default version — the
maximum numeric id among AVAILABLE versions, namely 2. -/
theorem version_resolution_two_available :
    statusRequest twoVersionModel none =
      Except.ok [⟨1, MVState.AVAILABLE⟩, ⟨2, MVState.AVAILABLE⟩] ∧
    twoVersionModel.entries.length = 2 ∧
    resolveVersion twoVersionModel none = Except.ok 2 := by
  refine ⟨rfl, rfl, ?_⟩
  rfl

/-- C9: prepare_certs called with all three paths absent returns the
triple (none, none, none) and performs no filesystem access: the access
log is empty whatever the filesystem contains. -/
theorem prepare_certs_none_no_access (fs : FileSystem) :
    prepare_certs fs none none none = ([], Except.ok (none, none, none)) := rfl

/-- Witness for C9 at a concrete filesystem. -/
theorem prepare_certs_none_no_access_witness :
    prepare_certs fsAll7 none none none = ([], Except.ok (none, none, none)) :=
  prepare_certs_none_no_access fsAll7

/-- C7: whenever every supplied path is readable, prepare_certs returns
for each supplied path exactly the on-disk contents of that file (the
byte buffer the filesystem maps the path to), and the returned 3-tuple
preserves per-slot presence: a slot is absent in the result if and only
if its path was not supplied. -/
theorem prepare_certs_reads_exact_bytes (fs : FileSystem)
    (server_cert client_key client_ca : Option String)
    (hs : ∀ p, server_cert = some p → (fs p).isSome)
    (hk : ∀ p, client_key = some p → (fs p).isSome)
    (hc : ∀ p, client_ca = some p → (fs p).isSome) :
    (prepare_certs fs server_cert client_key client_ca).2 =
      Except.ok (server_cert.bind fs, client_key.bind fs, client_ca.bind fs) ∧
    ((server_cert.bind fs).isSome ↔ server_cert.isSome) ∧
    ((client_key.bind fs).isSome ↔ client_key.isSome) ∧
    ((client_ca.bind fs).isSome ↔ client_ca.isSome) := by
  refine ⟨?_, ?_, ?_, ?_⟩
  · rw [prepare_certs_ok_of_readable fs _ _ _ hs hk hc]
  · cases server_cert with
    | none => simp
    | some p => simpa using hs p rfl
  · cases client_key with
    | none => simp
    | some p => simpa using hk p rfl
  · cases client_ca with
    | none => simp
    | some p => simpa using hc p rfl

/-- Witness for C7: on a filesystem mapping every path to the bytes [7],
supplying the server-certificate and client-CA paths but not the
client-key path yields exactly those contents in the corresponding
slots and absence in the unsupplied slot. -/
theorem prepare_certs_reads_exact_bytes_witness :
    (prepare_certs fsAll7 (some "server.pem") none (some "ca.pem")).2 =
      Except.ok (some [7], none, some [7]) := by
  have h := prepare_certs_reads_exact_bytes fsAll7 (some "server.pem") none (some "ca.pem")
    (fun p _ => rfl) (fun p hp => by cases hp) (fun p _ => rfl)
  exact h.1

/-- C8: a supplied path that is not readable makes prepare_certs fail
with a file-access error identifying the failing slot (the first failing
open in the order server certificate, client key, client CA), and a read
failure is never downgraded to absence: whenever the call returns
successfully, every supplied slot is present in the result. -/
theorem prepare_certs_error_identifies_slot (fs : FileSystem)
    (server_cert client_key client_ca : Option String) :
    (∀ p, server_cert = some p → fs p = none →
      (prepare_certs fs server_cert client_key client_ca).2 =
        Except.error ⟨CertSlot.server_cert, p⟩) ∧
    ((∀ p, server_cert = some p → (fs p).isSome) →
      ∀ p, client_key = some p → fs p = none →
      (prepare_certs fs server_cert client_key client_ca).2 =
        Except.error ⟨CertSlot.client_key, p⟩) ∧
    ((∀ p, server_cert = some p → (fs p).isSome) →
      (∀ p, client_key = some p → (fs p).isSome) →
      ∀ p, client_ca = some p → fs p = none →
      (prepare_certs fs server_cert client_key client_ca).2 =
        Except.error ⟨CertSlot.client_ca, p⟩) ∧
    (∀ sc ck ca,
      (prepare_certs fs server_cert client_key client_ca).2 =
        Except.ok (sc, ck, ca) →
      (server_cert.isSome → sc.isSome) ∧
      (client_key.isSome → ck.isSome) ∧
      (client_ca.isSome → ca.isSome)) := by
  refine ⟨?_, ?_, ?_, ?_⟩
  · intro p hp hnone
    exact prepare_certs_err_server fs _ _ _ p hp hnone
  · intro hs p hp hnone
    exact prepare_certs_err_key fs _ _ _ hs p hp hnone
  · intro hs hk p hp hnone
    exact prepare_certs_err_ca fs _ _ _ hs hk p hp hnone
  · intro sc ck ca h
    have hs : ∀ p, server_cert = some p → (fs p).isSome := by
      intro p hp
      cases hfp : fs p with
      | none =>
          rw [prepare_certs_err_server fs _ _ _ p hp hfp] at h
          cases h
      | some bs => rfl
    have hk : ∀ p, client_key = some p → (fs p).isSome := by
      intro p hp
      cases hfp : fs p with
      | none =>
          rw [prepare_certs_err_key fs _ _ _ hs p hp hfp] at h
          cases h
      | some bs => rfl
    have hc : ∀ p, client_ca = some p → (fs p).isSome := by
      intro p hp
      cases hfp : fs p with
      | none =>
          rw [prepare_certs_err_ca fs _ _ _ hs hk p hp hfp] at h
          cases h
      | some bs => rfl
    rw [prepare_certs_ok_of_readable fs _ _ _ hs hk hc] at h
    obtain ⟨h1, h2, h3⟩ := by
      simpa using h
    refine ⟨?_, ?_, ?_⟩
    · intro hsome
      obtain ⟨p, hp⟩ := Option.isSome_iff_exists.mp hsome
      rw [← h1, hp]
      simpa using hs p hp
    · intro hsome
      obtain ⟨p, hp⟩ := Option.isSome_iff_exists.mp hsome
      rw [← h2, hp]
      simpa using hk p hp
    · intro hsome
      obtain ⟨p, hp⟩ := Option.isSome_iff_exists.mp hsome
      rw [← h3, hp]
      simpa using hc p hp

/-- Witness for C8: on the filesystem with no readable path, a supplied
client-key path (with the server-certificate path readable because it is
not supplied) produces the client-key file-access error. -/
theorem prepare_certs_error_identifies_slot_witness :
    (prepare_certs fsNone none (some "key.pem") none).2 =
      Except.error ⟨CertSlot.client_key, "key.pem"⟩ := by
  have h := prepare_certs_error_identifies_slot fsNone none (some "key.pem") none
  exact h.2.1 (fun p hp => by cases hp) "key.pem" rfl rfl


lemma roundHalfEven_ge_floor (x : ℚ) : ⌊x⌋ ≤ roundHalfEven x := by
  unfold roundHalfEven
  split_ifs <;> omega

lemma roundHalfEven_le_floor_add_one (x : ℚ) : roundHalfEven x ≤ ⌊x⌋ + 1 := by
  unfold roundHalfEven
  split_ifs <;> omega

lemma roundHalfEven_mono {x y : ℚ} (h : x ≤ y) : roundHalfEven x ≤ roundHalfEven y := by
  rcases lt_or_le ⌊x⌋ ⌊y⌋ with hf | hf
  · have h1 := roundHalfEven_le_floor_add_one x
    have h2 := roundHalfEven_ge_floor y
    omega
  · have hfe : ⌊x⌋ = ⌊y⌋ := le_antisymm (Int.floor_le_floor h) hf
    unfold roundHalfEven
    rw [hfe]
    split_ifs <;> first | omega | (exfalso; linarith)

lemma round2_mono {x y : ℚ} (h : x ≤ y) : round2 x ≤ round2 y := by
  unfold round2
  have hm := roundHalfEven_mono (show x * 100 ≤ y * 100 by linarith)
  have hc : ((roundHalfEven (x * 100) : ℤ) : ℚ) ≤ ((roundHalfEven (y * 100) : ℤ) : ℚ) := by
    exact_mod_cast hm
  linarith

lemma pyDiv_val_ne (a q : ℚ) (h : q ≠ 0) :
    pyDiv a (PyFloat.val q) = PyFloat.val (a / q) := by
  simp [pyDiv, h]

lemma le_foldl_max : ∀ (l : List ℚ) (x : ℚ), ∀ y ∈ x :: l, y ≤ l.foldl max x := by
  intro l
  induction l with
  | nil =>
      intro x y hy
      have : y = x := by simpa using hy
      exact le_of_eq this
  | cons a t ih =>
      intro x y hy
      rcases List.mem_cons.mp hy with rfl | h
      · exact le_trans (le_max_left y a) (ih (max y a) _ (List.mem_cons_self _ _))
      · rcases List.mem_cons.mp h with rfl | h2
        · exact le_trans (le_max_right x y) (ih (max x y) _ (List.mem_cons_self _ _))
        · exact ih (max x a) y (List.mem_cons_of_mem _ h2)

lemma foldl_max_mem : ∀ (l : List ℚ) (x : ℚ), l.foldl max x ∈ x :: l := by
  intro l
  induction l with
  | nil => intro x; simp
  | cons a t ih =>
      intro x
      show t.foldl max (max x a) ∈ x :: a :: t
      rcases List.mem_cons.mp (ih (max x a)) with he | hm
      · rw [he]
        rcases max_choice x a with hc | hc
        · rw [hc]; exact List.mem_cons_self _ _
        · rw [hc]; exact List.mem_cons_of_mem _ (List.mem_cons_self _ _)
      · exact List.mem_cons_of_mem _ (List.mem_cons_of_mem _ hm)

lemma foldl_min_le : ∀ (l : List ℚ) (x : ℚ), ∀ y ∈ x :: l, l.foldl min x ≤ y := by
  intro l
  induction l with
  | nil =>
      intro x y hy
      have : y = x := by simpa using hy
      exact le_of_eq this.symm
  | cons a t ih =>
      intro x y hy
      rcases List.mem_cons.mp hy with rfl | h
      · exact le_trans (ih (min y a) _ (List.mem_cons_self _ _)) (min_le_left y a)
      · rcases List.mem_cons.mp h with rfl | h2
        · exact le_trans (ih (min x y) _ (List.mem_cons_self _ _)) (min_le_right x y)
        · exact ih (min x a) y (List.mem_cons_of_mem _ h2)

lemma foldl_min_mem : ∀ (l : List ℚ) (x : ℚ), l.foldl min x ∈ x :: l := by
  intro l
  induction l with
  | nil => intro x; simp
  | cons a t ih =>
      intro x
      show t.foldl min (min x a) ∈ x :: a :: t
      rcases List.mem_cons.mp (ih (min x a)) with he | hm
      · rw [he]
        rcases min_choice x a with hc | hc
        · rw [hc]; exact List.mem_cons_self _ _
        · rw [hc]; exact List.mem_cons_of_mem _ (List.mem_cons_self _ _)
      · exact List.mem_cons_of_mem _ (List.mem_cons_of_mem _ hm)

lemma getD_mem (s : List ℚ) (i : ℕ) (h : i < s.length) : s.getD i 0 ∈ s := by
  rw [List.getD_eq_getElem s 0 h]
  exact List.getElem_mem h

lemma sorted_getD_le (s : List ℚ) (hsor : List.Sorted (· ≤ ·) s) (i : ℕ)
    (h : i + 1 < s.length) : s.getD i 0 ≤ s.getD (i + 1) 0 := by
  have h0 : i < s.length := Nat.lt_of_succ_lt h
  rw [List.getD_eq_getElem s 0 h0, List.getD_eq_getElem s 0 h]
  have hg := hsor.rel_get_of_lt
    (show (⟨i, h0⟩ : Fin s.length) < ⟨i + 1, h⟩ from by simp [Fin.lt_def])
  simpa [List.get_eq_getElem] using hg

lemma le_avg_of_forall_le (x : ℚ) (l : List ℚ) (m : ℚ)
    (h : ∀ y ∈ x :: l, m ≤ y) :
    m ≤ (x :: l).sum / (((x :: l).length : ℕ) : ℚ) := by
  have hpos : (0 : ℚ) < (((x :: l).length : ℕ) : ℚ) := by
    have : 0 < (x :: l).length := List.length_pos.mpr (List.cons_ne_nil _ _)
    exact_mod_cast this
  rw [le_div_iff₀ hpos]
  have hs := List.card_nsmul_le_sum (x :: l) m h
  rw [nsmul_eq_mul] at hs
  linarith

lemma avg_le_of_forall_le (x : ℚ) (l : List ℚ) (M : ℚ)
    (h : ∀ y ∈ x :: l, y ≤ M) :
    (x :: l).sum / (((x :: l).length : ℕ) : ℚ) ≤ M := by
  have hpos : (0 : ℚ) < (((x :: l).length : ℕ) : ℚ) := by
    have : 0 < (x :: l).length := List.length_pos.mpr (List.cons_ne_nil _ _)
    exact_mod_cast this
  rw [div_le_iff₀ hpos]
  have hs := List.sum_le_card_nsmul (x :: l) M h
  rw [nsmul_eq_mul] at hs
  linarith

lemma medianOfSorted_bounds (s : List ℚ) (hne : s ≠ []) (m M : ℚ)
    (hlo : ∀ y ∈ s, m ≤ y) (hhi : ∀ y ∈ s, y ≤ M) :
    m ≤ medianOfSorted s ∧ medianOfSorted s ≤ M := by
  have hlen : 0 < s.length := List.length_pos.mpr hne
  have h2 : s.length / 2 < s.length := Nat.div_lt_self hlen one_lt_two
  have h1 : s.length / 2 - 1 < s.length := by omega
  unfold medianOfSorted
  by_cases hodd : s.length % 2 = 1
  · rw [if_pos hodd]
    exact ⟨hlo _ (getD_mem s _ h2), hhi _ (getD_mem s _ h2)⟩
  · rw [if_neg hodd]
    have a1 := hlo _ (getD_mem s _ h1)
    have a2 := hlo _ (getD_mem s _ h2)
    have b1 := hhi _ (getD_mem s _ h1)
    have b2 := hhi _ (getD_mem s _ h2)
    constructor <;> linarith

lemma percentileOfSorted_bounds (s : List ℚ) (hne : s ≠ [])
    (hsor : List.Sorted (· ≤ ·) s) (q : ℚ) (hq0 : 0 ≤ q) (hq1 : q ≤ 100)
    (m M : ℚ) (hlo : ∀ y ∈ s, m ≤ y) (hhi : ∀ y ∈ s, y ≤ M) :
    m ≤ percentileOfSorted s q ∧ percentileOfSorted s q ≤ M := by
  have hlen : 0 < s.length := List.length_pos.mpr hne
  have hn1 : (0 : ℚ) ≤ (s.length : ℚ) - 1 := by
    have : (1 : ℚ) ≤ (s.length : ℚ) := by exact_mod_cast hlen
    linarith
  have hpos0 : 0 ≤ q / 100 * ((s.length : ℚ) - 1) :=
    mul_nonneg (div_nonneg hq0 (by norm_num)) hn1
  have hposle : q / 100 * ((s.length : ℚ) - 1) ≤ (s.length : ℚ) - 1 := by
    have hq100 : q / 100 ≤ 1 := (div_le_one (by norm_num)).mpr hq1
    nlinarith
  have hfl0 : 0 ≤ ⌊q / 100 * ((s.length : ℚ) - 1)⌋ := Int.floor_nonneg.mpr hpos0
  have hfl1 : ⌊q / 100 * ((s.length : ℚ) - 1)⌋ ≤ (s.length : ℤ) - 1 := by
    have ha := Int.floor_le_floor hposle
    have hb : ⌊(s.length : ℚ) - 1⌋ = (s.length : ℤ) - 1 := by
      rw [show ((s.length : ℚ) - 1) = (((s.length : ℤ) - 1 : ℤ) : ℚ) by push_cast; ring]
      exact Int.floor_intCast _
    omega
  have hi_lt : (⌊q / 100 * ((s.length : ℚ) - 1)⌋).toNat < s.length := by omega
  have hfr0 : 0 ≤ q / 100 * ((s.length : ℚ) - 1) -
      ((⌊q / 100 * ((s.length : ℚ) - 1)⌋ : ℤ) : ℚ) := by
    linarith [Int.floor_le (q / 100 * ((s.length : ℚ) - 1))]
  have hfr1 : q / 100 * ((s.length : ℚ) - 1) -
      ((⌊q / 100 * ((s.length : ℚ) - 1)⌋ : ℤ) : ℚ) ≤ 1 := by
    linarith [Int.lt_floor_add_one (q / 100 * ((s.length : ℚ) - 1))]
  simp only [percentileOfSorted]
  by_cases hc : (⌊q / 100 * ((s.length : ℚ) - 1)⌋).toNat + 1 < s.length
  · rw [if_pos hc]
    have hadj := sorted_getD_le s hsor _ hc
    have hm1 := hlo _ (getD_mem s _ hi_lt)
    have hM2 := hhi _ (getD_mem s _ hc)
    constructor
    · have hprod := mul_nonneg hfr0 (sub_nonneg.mpr hadj)
      linarith
    · have hprod := mul_le_mul_of_nonneg_right hfr1 (sub_nonneg.mpr hadj)
      linarith
  · rw [if_neg hc]
    exact ⟨hlo _ (getD_mem s _ hi_lt), hhi _ (getD_mem s _ hi_lt)⟩

/-- C5: for a fixed positive batch size, throughput is strictly
antitone in the time statistic (time1 < time2 implies throughput1 >
throughput2); and in the print_statistics report of a non-empty sequence
of positive samples, the max-time line carries exactly the speed derived
from the max time (the minimum speed, labelled "min speed") and the
min-time line the speed derived from the min time (the maximum speed,
labelled "max speed"): every displayed speed lies between those two. -/
theorem throughput_antitone_pairing (ts : List ℚ) (b : ℚ)
    (hne : ts ≠ []) (hb : 0 < b) (hpos : ∀ t ∈ ts, 0 < t) :
    (∀ t1 t2 : ℚ, 0 < t1 → t1 < t2 → throughput b t2 < throughput b t1) ∧
    (∀ mx mn : ℚ, np_max ts = Except.ok mx → np_min ts = Except.ok mn →
      ReportLine.timeSpeed "max time" "min speed"
          (PyFloat.val (round2 mx)) (PyFloat.val (round2 (throughput b mx)))
        ∈ (print_statistics ts b).1 ∧
      ReportLine.timeSpeed "min time" "max speed"
          (PyFloat.val (round2 mn)) (PyFloat.val (round2 (throughput b mn)))
        ∈ (print_statistics ts b).1 ∧
      (∀ line ∈ (print_statistics ts b).1, ∀ tl sl tv sv,
        line = ReportLine.timeSpeed tl sl tv sv →
        ∃ t s : ℚ, 0 < t ∧ tv = PyFloat.val (round2 t) ∧
          s = round2 (throughput b t) ∧ sv = PyFloat.val s ∧
          round2 (throughput b mx) ≤ s ∧ s ≤ round2 (throughput b mn))) := by
  constructor
  · intro t1 t2 h1 h12
    exact div_lt_div_of_pos_left (by positivity) h1 h12
  · cases ts with
    | nil => exact absurd rfl hne
    | cons x l =>
        intro mx mn hmx hmn
        have hmx' : l.foldl max x = mx := by
          have h0 : Except.ok (l.foldl max x) = Except.ok mx := hmx
          exact Except.ok.inj h0
        have hmn' : l.foldl min x = mn := by
          have h0 : Except.ok (l.foldl min x) = Except.ok mn := hmn
          exact Except.ok.inj h0
        have hbhi : ∀ y ∈ x :: l, y ≤ mx := by
          rw [← hmx']; exact le_foldl_max l x
        have hblo : ∀ y ∈ x :: l, mn ≤ y := by
          rw [← hmn']; exact foldl_min_le l x
        have hmem_mx : mx ∈ x :: l := by
          rw [← hmx']; exact foldl_max_mem l x
        have hmem_mn : mn ∈ x :: l := by
          rw [← hmn']; exact foldl_min_mem l x
        have hmx_pos : 0 < mx := hpos _ hmem_mx
        have hmn_pos : 0 < mn := hpos _ hmem_mn
        have key : ∀ t : ℚ, 0 < t → mn ≤ t → t ≤ mx →
            pyRound (pyDiv (1000 * b) (PyFloat.val t)) =
              PyFloat.val (round2 (throughput b t)) ∧
            round2 (throughput b mx) ≤ round2 (throughput b t) ∧
            round2 (throughput b t) ≤ round2 (throughput b mn) := by
          intro t ht hl hh
          refine ⟨?_, ?_, ?_⟩
          · rw [pyDiv_val_ne _ _ (ne_of_gt ht)]
            rfl
          · exact round2_mono (div_le_div_of_nonneg_left (by positivity) ht hh)
          · exact round2_mono (div_le_div_of_nonneg_left (by positivity) hmn_pos hl)
        have hmem_s : ∀ y, y ∈ sortQ (x :: l) → y ∈ x :: l := by
          intro y hy
          rw [sortQ, List.mem_insertionSort] at hy
          exact hy
        have hsorted : List.Sorted (· ≤ ·) (sortQ (x :: l)) :=
          List.sorted_insertionSort _ _
        have hsne : sortQ (x :: l) ≠ [] := by
          intro h0
          have hx : x ∈ sortQ (x :: l) := by
            rw [sortQ, List.mem_insertionSort]
            exact List.mem_cons_self x l
          rw [h0] at hx
          exact List.not_mem_nil x hx
        have hlo_s : ∀ y ∈ sortQ (x :: l), mn ≤ y := fun y hy => hblo y (hmem_s y hy)
        have hhi_s : ∀ y ∈ sortQ (x :: l), y ≤ mx := fun y hy => hbhi y (hmem_s y hy)
        have hb_med := medianOfSorted_bounds (sortQ (x :: l)) hsne mn mx hlo_s hhi_s
        have hb_p90 := percentileOfSorted_bounds (sortQ (x :: l)) hsne hsorted 90
          (by norm_num) (by norm_num) mn mx hlo_s hhi_s
        have hb_p50 := percentileOfSorted_bounds (sortQ (x :: l)) hsne hsorted 50
          (by norm_num) (by norm_num) mn mx hlo_s hhi_s
        have hb_avg : mn ≤ (x :: l).sum / (((x :: l).length : ℕ) : ℚ) ∧
            (x :: l).sum / (((x :: l).length : ℕ) : ℚ) ≤ mx :=
          ⟨le_avg_of_forall_le x l mn hblo, avg_le_of_forall_le x l mx hbhi⟩
        have hp_avg : 0 < (x :: l).sum / (((x :: l).length : ℕ) : ℚ) :=
          lt_of_lt_of_le hmn_pos hb_avg.1
        have hp_med : 0 < medianOfSorted (sortQ (x :: l)) :=
          lt_of_lt_of_le hmn_pos hb_med.1
        have hp_p90 : 0 < percentileOfSorted (sortQ (x :: l)) 90 :=
          lt_of_lt_of_le hmn_pos hb_p90.1
        have hp_p50 : 0 < percentileOfSorted (sortQ (x :: l)) 50 :=
          lt_of_lt_of_le hmn_pos hb_p50.1
        refine ⟨?_, ?_, ?_⟩
        · rw [print_statistics_cons, hmx', hmn', ← (key mx hmx_pos (hblo _ hmem_mx) (le_refl mx)).1]
          exact List.mem_cons_of_mem _ (List.mem_cons_of_mem _ (List.mem_cons_of_mem _
            (List.mem_cons_self _ _)))
        · rw [print_statistics_cons, hmx', hmn', ← (key mn hmn_pos (le_refl mn) (hbhi _ hmem_mn)).1]
          exact List.mem_cons_of_mem _ (List.mem_cons_of_mem _ (List.mem_cons_of_mem _
            (List.mem_cons_of_mem _ (List.mem_cons_self _ _))))
        · intro line hline tl sl tv sv heq
          rw [print_statistics_cons, hmx', hmn'] at hline
          simp only [List.mem_cons, List.not_mem_nil, or_false] at hline
          rcases hline with rfl | rfl | rfl | rfl | rfl | rfl | rfl | rfl | rfl
          · exact ReportLine.noConfusion heq
          · injection heq with e1 e2 e3 e4
            subst e3; subst e4
            exact ⟨_, _, hp_avg, rfl, rfl, (key _ hp_avg hb_avg.1 hb_avg.2).1,
              (key _ hp_avg hb_avg.1 hb_avg.2).2.1, (key _ hp_avg hb_avg.1 hb_avg.2).2.2⟩
          · injection heq with e1 e2 e3 e4
            subst e3; subst e4
            exact ⟨_, _, hp_med, rfl, rfl, (key _ hp_med hb_med.1 hb_med.2).1,
              (key _ hp_med hb_med.1 hb_med.2).2.1, (key _ hp_med hb_med.1 hb_med.2).2.2⟩
          · injection heq with e1 e2 e3 e4
            subst e3; subst e4
            exact ⟨_, _, hmx_pos, rfl, rfl, (key _ hmx_pos (hblo _ hmem_mx) (le_refl mx)).1,
              (key _ hmx_pos (hblo _ hmem_mx) (le_refl mx)).2.1,
              (key _ hmx_pos (hblo _ hmem_mx) (le_refl mx)).2.2⟩
          · injection heq with e1 e2 e3 e4
            subst e3; subst e4
            exact ⟨_, _, hmn_pos, rfl, rfl, (key _ hmn_pos (le_refl mn) (hbhi _ hmem_mn)).1,
              (key _ hmn_pos (le_refl mn) (hbhi _ hmem_mn)).2.1,
              (key _ hmn_pos (le_refl mn) (hbhi _ hmem_mn)).2.2⟩
          · injection heq with e1 e2 e3 e4
            subst e3; subst e4
            exact ⟨_, _, hp_p90, rfl, rfl, (key _ hp_p90 hb_p90.1 hb_p90.2).1,
              (key _ hp_p90 hb_p90.1 hb_p90.2).2.1, (key _ hp_p90 hb_p90.1 hb_p90.2).2.2⟩
          · injection heq with e1 e2 e3 e4
            subst e3; subst e4
            exact ⟨_, _, hp_p50, rfl, rfl, (key _ hp_p50 hb_p50.1 hb_p50.2).1,
              (key _ hp_p50 hb_p50.1 hb_p50.2).2.1, (key _ hp_p50 hb_p50.1 hb_p50.2).2.2⟩
          · exact ReportLine.noConfusion heq
          · exact ReportLine.noConfusion heq

/-- Concrete evaluations used by the C5 witness. -/
lemma np_max_eval_ex : np_max [10, 20, 30, 40, 50] = Except.ok 50 := by
  norm_num [np_max, List.foldl, max_def]

/-- Concrete evaluations used by the C5 witness. -/
lemma np_min_eval_ex : np_min [10, 20, 30, 40, 50] = Except.ok 10 := by
  norm_num [np_min, List.foldl, min_def]

/-- Concrete evaluations used by the C5 witness. -/
lemma round2_eval_ex :
    round2 50 = 50 ∧ round2 (throughput 4 50) = 80 ∧
    round2 10 = 10 ∧ round2 (throughput 4 10) = 400 := by
  refine ⟨?_, ?_, ?_, ?_⟩ <;> norm_num [round2, roundHalfEven, throughput]

/-- Witness for C5 at the example of the specification: for the samples
[10, 20, 30, 40, 50] with batch size 4, the report pairs the max time
50 ms with the min speed 80 fps and the min time 10 ms with the max
speed 400 fps. -/
theorem throughput_antitone_pairing_witness :
    ReportLine.timeSpeed "max time" "min speed" (PyFloat.val 50) (PyFloat.val 80)
      ∈ (print_statistics [10, 20, 30, 40, 50] 4).1 ∧
    ReportLine.timeSpeed "min time" "max speed" (PyFloat.val 10) (PyFloat.val 400)
      ∈ (print_statistics [10, 20, 30, 40, 50] 4).1 := by
  have h := throughput_antitone_pairing [10, 20, 30, 40, 50] 4
    (List.cons_ne_nil _ _) (by decide) (by decide)
  obtain ⟨hmax_mem, hmin_mem, _⟩ := h.2 50 10 np_max_eval_ex np_min_eval_ex
  rw [round2_eval_ex.1, round2_eval_ex.2.1] at hmax_mem
  rw [round2_eval_ex.2.2.1, round2_eval_ex.2.2.2] at hmin_mem
  exact ⟨hmax_mem, hmin_mem⟩
